import Mathlib

/-!
Verification development for the es-bulk-loader command line tool
(cmd/es-bulk-loader/main.go).  The Go program is shallowly embedded:
pure helpers become Lean functions, the file system and the
Elasticsearch cluster become explicit oracles, and the bulk upload
loop becomes a fueled step function so that its termination behaviour
can be analysed.  JSON values are modelled with integer numerals; the
properties under study do not depend on the floating point grammar.
-/

namespace EsBulkLoader

/-- JSON values as handled by the Go encoding/json package when
decoding into an interface value.  Object fields are kept as an
association list in decode order; numbers are modelled as integers. -/
inductive Json where
  | null : Json
  | bool (b : Bool) : Json
  | num (n : Int) : Json
  | str (s : String) : Json
  | arr (elems : List Json) : Json
  | obj (fields : List (String × Json)) : Json

/-- Decimal digit to character, total with a junk default. -/
def digitChar (d : Nat) : Char :=
  if d = 0 then '0' else if d = 1 then '1' else if d = 2 then '2'
  else if d = 3 then '3' else if d = 4 then '4' else if d = 5 then '5'
  else if d = 6 then '6' else if d = 7 then '7' else if d = 8 then '8'
  else if d = 9 then '9' else '*'

/-- Fueled decimal rendering of a natural number, most significant
digit first.  Structural in the fuel so that it evaluates by kernel
reduction. -/
def natCharsAux : Nat → Nat → List Char
  | 0, _ => []
  | fuel + 1, n => if n = 0 then [] else natCharsAux fuel (n / 10) ++ [digitChar (n % 10)]

/-- Decimal rendering of a natural number, as the Go strconv package
would print it. -/
def natChars (n : Nat) : List Char :=
  if n = 0 then ['0'] else natCharsAux (n + 1) n

/-- Decimal rendering of an integer. -/
def intChars (n : Int) : List Char :=
  if n < 0 then '-' :: natChars n.natAbs else natChars n.natAbs

/-- Hexadecimal digit to character (lower case), total with a junk
default. -/
def hexChar (d : Nat) : Char :=
  if d < 10 then digitChar d
  else if d = 10 then 'a' else if d = 11 then 'b' else if d = 12 then 'c'
  else if d = 13 then 'd' else if d = 14 then 'e' else if d = 15 then 'f'
  else '*'

/-- String escaping as performed by the Go encoding/json marshaller:
quote and backslash get a backslash escape, newline, carriage return
and tab get their short escapes, every other control character is
written as a four digit hexadecimal escape. -/
def escapeChar (c : Char) : List Char :=
  if c = '"' then ['\\', '"']
  else if c = '\\' then ['\\', '\\']
  else if c = '\n' then ['\\', 'n']
  else if c = '\r' then ['\\', 'r']
  else if c = '\t' then ['\\', 't']
  else if c.toNat < 32 then
    ['\\', 'u', '0', '0', hexChar (c.toNat / 16), hexChar (c.toNat % 16)]
  else [c]

/-- Escape every character of a string body. -/
def escapeList (l : List Char) : List Char := l.flatMap escapeChar

mutual

/-- Compact serialization of a JSON value, modelling the output of
the Go json.Marshal function on the corresponding interface value. -/
def printJson : Json → List Char
  | .null => ['n', 'u', 'l', 'l']
  | .bool b => if b then ['t', 'r', 'u', 'e'] else ['f', 'a', 'l', 's', 'e']
  | .num n => intChars n
  | .str s => '"' :: (escapeList s.data ++ ['"'])
  | .arr [] => ['[', ']']
  | .arr (v :: vs) => '[' :: (printJson v ++ printElems vs ++ [']'])
  | .obj [] => ['\x7b', '\x7d']
  | .obj (f :: fs) => '\x7b' :: (printField f ++ printFields fs ++ ['\x7d'])

/-- Serialization of the remaining elements of a non-empty array,
each preceded by a comma. -/
def printElems : List Json → List Char
  | [] => []
  | v :: vs => ',' :: (printJson v ++ printElems vs)

/-- Serialization of a single object field. -/
def printField : String × Json → List Char
  | (k, v) => '"' :: (escapeList k.data ++ ['"', ':'] ++ printJson v)

/-- Serialization of the remaining fields of a non-empty object, each
preceded by a comma. -/
def printFields : List (String × Json) → List Char
  | [] => []
  | f :: fs => ',' :: (printField f ++ printFields fs)

end

/-- Serialization of a JSON value as a string. -/
def printString (v : Json) : String := String.mk (printJson v)

mutual

/-- Fuel needed by the value parser on the serialization of a value. -/
def sizeJ : Json → Nat
  | .null => 1
  | .bool _ => 1
  | .num _ => 1
  | .str _ => 1
  | .arr vs => 1 + sizeElems vs
  | .obj fs => 1 + sizeFields fs

/-- Fuel needed by the element list parser. -/
def sizeElems : List Json → Nat
  | [] => 1
  | v :: vs => 1 + sizeJ v + sizeElems vs

/-- Fuel needed by the field parser. -/
def sizeField : String × Json → Nat
  | (_, v) => 1 + sizeJ v

/-- Fuel needed by the field list parser. -/
def sizeFields : List (String × Json) → Nat
  | [] => 1
  | f :: fs => 1 + sizeField f + sizeFields fs

end

/-- JSON insignificant whitespace. -/
def isWs (c : Char) : Bool := c = ' ' || c = '\n' || c = '\t' || c = '\r'

/-- Drop leading whitespace. -/
def skipWs : List Char → List Char
  | [] => []
  | c :: cs => if isWs c then skipWs cs else c :: cs

/-- Value of one hexadecimal digit character. -/
def hexVal (c : Char) : Option Nat :=
  if c.isDigit then some (c.toNat - 48)
  else if 'a' ≤ c ∧ c ≤ 'f' then some (c.toNat - 87)
  else if 'A' ≤ c ∧ c ≤ 'F' then some (c.toNat - 55)
  else none

/-- Decode one escape sequence after a backslash inside a JSON
string literal. -/
def unescape1 (e : Char) (rest : List Char) : Option (Char × List Char) :=
  if e = '"' then some ('"', rest)
  else if e = '\\' then some ('\\', rest)
  else if e = '/' then some ('/', rest)
  else if e = 'n' then some ('\n', rest)
  else if e = 't' then some ('\t', rest)
  else if e = 'r' then some ('\r', rest)
  else if e = 'b' then some ('\x08', rest)
  else if e = 'f' then some ('\x0c', rest)
  else if e = 'u' then
    match rest with
    | h1 :: h2 :: h3 :: h4 :: rest2 =>
      match hexVal h1, hexVal h2, hexVal h3, hexVal h4 with
      | some a, some b, some c, some d =>
        some (Char.ofNat (4096 * a + 256 * b + 16 * c + d), rest2)
      | _, _, _, _ => none
    | _ => none
  else none

/-- Parse the body of a JSON string literal after the opening quote,
up to and including the closing quote. -/
def parseStringBody : Nat → List Char → Option (List Char × List Char)
  | 0, _ => none
  | fuel + 1, cs =>
    match cs with
    | [] => none
    | c :: rest =>
      if c = '"' then some ([], rest)
      else if c = '\\' then
        match rest with
        | [] => none
        | e :: rest2 =>
          match unescape1 e rest2 with
          | some (uc, rest3) =>
            match parseStringBody fuel rest3 with
            | some (body, r) => some (uc :: body, r)
            | none => none
          | none => none
      else
        match parseStringBody fuel rest with
        | some (body, r) => some (c :: body, r)
        | none => none

/-- Split off the longest prefix of decimal digit characters. -/
def takeDigits : List Char → List Char × List Char
  | [] => ([], [])
  | c :: cs =>
    if c.isDigit then
      match takeDigits cs with
      | (ds, r) => (c :: ds, r)
    else ([], c :: cs)

/-- Numeric value of a list of decimal digit characters. -/
def digitsVal (ds : List Char) : Nat :=
  ds.foldl (fun a c => 10 * a + (c.toNat - 48)) 0

mutual

/-- Fueled JSON value parser.  Structural in the fuel so that it
evaluates by kernel reduction. -/
def parseVal : Nat → List Char → Option (Json × List Char)
  | 0, _ => none
  | fuel + 1, cs =>
    match skipWs cs with
    | [] => none
    | c :: rest =>
      if c = 'n' then
        match rest with
        | c1 :: c2 :: c3 :: r =>
          if c1 = 'u' ∧ c2 = 'l' ∧ c3 = 'l' then some (.null, r) else none
        | _ => none
      else if c = 't' then
        match rest with
        | c1 :: c2 :: c3 :: r =>
          if c1 = 'r' ∧ c2 = 'u' ∧ c3 = 'e' then some (.bool true, r) else none
        | _ => none
      else if c = 'f' then
        match rest with
        | c1 :: c2 :: c3 :: c4 :: r =>
          if c1 = 'a' ∧ c2 = 'l' ∧ c3 = 's' ∧ c4 = 'e' then some (.bool false, r) else none
        | _ => none
      else if c = '"' then
        match parseStringBody (rest.length + 1) rest with
        | some (body, r) => some (.str (String.mk body), r)
        | none => none
      else if c = '-' then
        match takeDigits rest with
        | (ds, r) => if ds.isEmpty then none else some (.num (-(digitsVal ds : Int)), r)
      else if c.isDigit then
        match takeDigits (c :: rest) with
        | (ds, r) => some (.num (digitsVal ds), r)
      else if c = '[' then
        match skipWs rest with
        | [] => none
        | c2 :: r2 =>
          if c2 = ']' then some (.arr [], r2)
          else
            match parseVal fuel rest with
            | some (v, r3) =>
              match parseElems fuel r3 with
              | some (vs, r4) => some (.arr (v :: vs), r4)
              | none => none
            | none => none
      else if c = '\x7b' then
        match skipWs rest with
        | [] => none
        | c2 :: r2 =>
          if c2 = '\x7d' then some (.obj [], r2)
          else
            match parseField fuel rest with
            | some (f, r3) =>
              match parseFields fuel r3 with
              | some (fs, r4) => some (.obj (f :: fs), r4)
              | none => none
            | none => none
      else none

/-- Parse the elements of an array after the first one: a possibly
empty run of comma separated values closed by a bracket. -/
def parseElems : Nat → List Char → Option (List Json × List Char)
  | 0, _ => none
  | fuel + 1, cs =>
    match skipWs cs with
    | [] => none
    | c :: rest =>
      if c = ',' then
        match parseVal fuel rest with
        | some (v, r) =>
          match parseElems fuel r with
          | some (vs, r2) => some (v :: vs, r2)
          | none => none
        | none => none
      else if c = ']' then some ([], rest)
      else none

/-- Parse one object field: a quoted key, a colon and a value. -/
def parseField : Nat → List Char → Option ((String × Json) × List Char)
  | 0, _ => none
  | fuel + 1, cs =>
    match skipWs cs with
    | [] => none
    | c :: rest =>
      if c = '"' then
        match parseStringBody (rest.length + 1) rest with
        | some (key, r) =>
          match skipWs r with
          | [] => none
          | c2 :: r2 =>
            if c2 = ':' then
              match parseVal fuel r2 with
              | some (v, r3) => some ((String.mk key, v), r3)
              | none => none
            else none
        | none => none
      else none

/-- Parse the fields of an object after the first one: a possibly
empty run of comma separated fields closed by a brace. -/
def parseFields : Nat → List Char → Option (List (String × Json) × List Char)
  | 0, _ => none
  | fuel + 1, cs =>
    match skipWs cs with
    | [] => none
    | c :: rest =>
      if c = ',' then
        match parseField fuel rest with
        | some (f, r) =>
          match parseFields fuel r with
          | some (fs, r2) => some (f :: fs, r2)
          | none => none
        | none => none
      else if c = '\x7d' then some ([], rest)
      else none

end

/-- Parse a whole string as one JSON value, allowing surrounding
whitespace and rejecting trailing garbage.  The fuel bound suffices
for every serialized value. -/
def parseJson (s : String) : Option Json :=
  match parseVal (2 * s.data.length + 1) s.data with
  | some (v, rest) => if skipWs rest = [] then some v else none
  | none => none

/-- True when the list does not start with a decimal digit, so that a
number parse ending right before it cannot swallow part of it. -/
def headNotDigit : List Char → Bool
  | [] => true
  | c :: _ => !c.isDigit

theorem skipWs_cons (c : Char) (l : List Char) (h : isWs c = false) :
    skipWs (c :: l) = c :: l := by
  simp [skipWs, h]

theorem isDigit_not_ws (c : Char) (h : c.isDigit = true) : isWs c = false := by
  by_cases h1 : c = ' '
  · subst h1; exact absurd h (by decide)
  · by_cases h2 : c = '\n'
    · subst h2; exact absurd h (by decide)
    · by_cases h3 : c = '\t'
      · subst h3; exact absurd h (by decide)
      · by_cases h4 : c = '\r'
        · subst h4; exact absurd h (by decide)
        · simp [isWs, h1, h2, h3, h4]

theorem isDigit_ne (c x : Char) (h : c.isDigit = true) (hx : x.isDigit = false) : c ≠ x := by
  intro e; rw [e, hx] at h; exact Bool.noConfusion h

theorem digitChar_isDigit : ∀ d, d < 10 → (digitChar d).isDigit = true := by decide

theorem digitChar_toNat : ∀ d, d < 10 → (digitChar d).toNat = 48 + d := by decide

theorem natCharsAux_digits : ∀ fuel n, n ≤ fuel → ∀ c ∈ natCharsAux fuel n, c.isDigit = true := by
  intro fuel
  induction fuel with
  | zero => intro n h c hc; simp [natCharsAux] at hc
  | succ fuel ih =>
    intro n h c hc
    by_cases hn : n = 0
    · simp [natCharsAux, hn] at hc
    · simp only [natCharsAux, if_neg hn, List.mem_append, List.mem_singleton] at hc
      rcases hc with hc | hc
      · exact ih (n / 10) (by omega) c hc
      · subst hc; exact digitChar_isDigit _ (Nat.mod_lt _ (by norm_num))

theorem natChars_digits (n : Nat) : ∀ c ∈ natChars n, c.isDigit = true := by
  intro c hc
  by_cases hn : n = 0
  · simp [natChars, hn] at hc; subst hc; decide
  · simp only [natChars, if_neg hn] at hc
    exact natCharsAux_digits (n+1) n (by omega) c hc

theorem natChars_cons (n : Nat) : ∃ c t, natChars n = c :: t ∧ c.isDigit = true := by
  by_cases hn : n = 0
  · exact ⟨'0', [], by simp [natChars, hn], by decide⟩
  · have hne : natChars n ≠ [] := by
      simp only [natChars, if_neg hn]
      unfold natCharsAux
      simp [hn]
    match hmk : natChars n with
    | [] => exact absurd hmk hne
    | c :: t => exact ⟨c, t, rfl, natChars_digits n c (by rw [hmk]; exact List.mem_cons_self c t)⟩

theorem natCharsAux_val : ∀ fuel n, n ≤ fuel → ∀ a : Nat,
    (natCharsAux fuel n).foldl (fun a c => 10 * a + (c.toNat - 48)) a
      = a * 10 ^ (natCharsAux fuel n).length + n := by
  intro fuel
  induction fuel with
  | zero => intro n h a; interval_cases n; simp [natCharsAux]
  | succ fuel ih =>
    intro n h a
    by_cases hn : n = 0
    · simp [natCharsAux, hn]
    · simp only [natCharsAux, if_neg hn, List.foldl_append, List.length_append,
        List.foldl_cons, List.foldl_nil, List.length_cons, List.length_nil]
      rw [ih (n / 10) (by omega) a]
      rw [digitChar_toNat _ (Nat.mod_lt _ (by norm_num))]
      generalize (natCharsAux fuel (n / 10)).length = L
      rw [pow_succ]
      have h48 : 48 + n % 10 - 48 = n % 10 := by omega
      rw [h48]
      have hdm := Nat.div_add_mod n 10
      ring_nf
      omega

theorem digitsVal_natChars (n : Nat) : digitsVal (natChars n) = n := by
  by_cases hn : n = 0
  · simp [natChars, hn, digitsVal]
  · simp only [natChars, if_neg hn, digitsVal]
    have := natCharsAux_val (n+1) n (by omega) 0
    simpa using this

theorem takeDigits_append : ∀ ds rest, (∀ c ∈ ds, c.isDigit = true) →
    headNotDigit rest = true → takeDigits (ds ++ rest) = (ds, rest) := by
  intro ds
  induction ds with
  | nil =>
    intro rest _ hr
    cases rest with
    | nil => rfl
    | cons c cs =>
      have : c.isDigit = false := by simpa [headNotDigit] using hr
      simp [takeDigits, this]
  | cons d ds ih =>
    intro rest h hr
    have hd : d.isDigit = true := h d (List.mem_cons_self d ds)
    simp only [List.cons_append, takeDigits, hd, if_pos]
    rw [show ds.append rest = ds ++ rest from rfl,
      ih rest (fun c hc => h c (List.mem_cons_of_mem d hc)) hr]


theorem hexVal_hexChar : ∀ d, d < 16 → hexVal (hexChar d) = some d := by decide

theorem escapeList_cons (c : Char) (l : List Char) :
    escapeList (c :: l) = escapeChar c ++ escapeList l := by
  simp [escapeList]

theorem parseStringBody_escape : ∀ l fuel rest, l.length + 1 ≤ fuel →
    parseStringBody fuel (escapeList l ++ '"' :: rest) = some (l, rest) := by
  intro l
  induction l with
  | nil =>
    intro fuel rest h
    obtain ⟨f, rfl⟩ : ∃ f, fuel = f + 1 := ⟨fuel - 1, by omega⟩
    simp [escapeList, parseStringBody]
  | cons c l ih =>
    intro fuel rest h
    obtain ⟨f, rfl⟩ : ∃ f, fuel = f + 1 := ⟨fuel - 1, by omega⟩
    have hf : l.length + 1 ≤ f := by simp at h; omega
    rw [escapeList_cons, List.append_assoc]
    by_cases h1 : c = '"'
    · subst h1
      simp [escapeChar, parseStringBody, unescape1, ih _ rest hf]
    by_cases h2 : c = '\\'
    · subst h2
      simp [escapeChar, parseStringBody, unescape1, ih _ rest hf]
    by_cases h3 : c = '\n'
    · subst h3
      simp [escapeChar, parseStringBody, unescape1, ih _ rest hf]
    by_cases h4 : c = '\r'
    · subst h4
      simp [escapeChar, parseStringBody, unescape1, ih _ rest hf]
    by_cases h5 : c = '\t'
    · subst h5
      simp [escapeChar, parseStringBody, unescape1, ih _ rest hf]
    by_cases h6 : c.toNat < 32
    · have he : escapeChar c
          = ['\\', 'u', '0', '0', hexChar (c.toNat / 16), hexChar (c.toNat % 16)] := by
        simp [escapeChar, h1, h2, h3, h4, h5, h6]
      rw [he]
      have hdiv : hexVal (hexChar (c.toNat / 16)) = some (c.toNat / 16) :=
        hexVal_hexChar _ (by omega)
      have hmod : hexVal (hexChar (c.toNat % 16)) = some (c.toNat % 16) :=
        hexVal_hexChar _ (by omega)
      have hval : 4096 * 0 + 256 * 0 + 16 * (c.toNat / 16) + c.toNat % 16 = c.toNat := by
        omega
      have h0 : hexVal '0' = some 0 := by decide
      simp only [List.cons_append, parseStringBody, unescape1]
      simp [h0, hdiv, hmod, ih _ rest hf]
      rw [show 16 * (c.toNat / 16) + c.toNat % 16 = c.toNat from by omega, Char.ofNat_toNat]
    · have he : escapeChar c = [c] := by
        simp [escapeChar, h1, h2, h3, h4, h5, h6]
      rw [he]
      simp only [List.cons_append, List.nil_append, parseStringBody]
      simp [h1, h2, ih _ rest hf]


theorem natChars_ne_nil (n : Nat) : natChars n ≠ [] := by
  obtain ⟨c, t, hct, _⟩ := natChars_cons n
  simp [hct]

theorem intChars_length_pos (n : Int) : 1 ≤ (intChars n).length := by
  unfold intChars
  obtain ⟨c, t, hct, _⟩ := natChars_cons n.natAbs
  by_cases h : n < 0 <;> simp [h, hct]

theorem escapeChar_length_pos (c : Char) : 1 ≤ (escapeChar c).length := by
  unfold escapeChar
  split_ifs <;> simp

theorem escapeList_length (l : List Char) : l.length ≤ (escapeList l).length := by
  induction l with
  | nil => simp [escapeList]
  | cons c l ih =>
    have := escapeChar_length_pos c
    simp only [escapeList, List.flatMap_cons, List.length_append, List.length_cons] at *
    omega

theorem mk_data (s : String) : String.mk s.data = s := rfl

mutual

theorem sizeJ_le : ∀ v : Json, sizeJ v ≤ 2 * (printJson v).length
  | .null => by simp [sizeJ, printJson]
  | .bool b => by cases b <;> simp [sizeJ, printJson]
  | .num n => by
    have h := intChars_length_pos n
    simp only [sizeJ, printJson]
    omega
  | .str s => by simp [sizeJ, printJson]; omega
  | .arr [] => by simp [sizeJ, sizeElems, printJson]
  | .arr (v :: vs) => by
    have h1 := sizeJ_le v
    have h2 := sizeElems_le vs
    simp only [sizeJ, sizeElems, printJson, List.length_cons, List.length_append] at *
    omega
  | .obj [] => by simp [sizeJ, sizeFields, printJson]
  | .obj (f :: fs) => by
    have h1 := sizeField_le f
    have h2 := sizeFields_le fs
    simp only [sizeJ, sizeFields, printJson, List.length_cons, List.length_append] at *
    omega

theorem sizeElems_le : ∀ vs : List Json, sizeElems vs ≤ 2 * (printElems vs).length + 1
  | [] => by simp [sizeElems, printElems]
  | v :: vs => by
    have h1 := sizeJ_le v
    have h2 := sizeElems_le vs
    simp only [sizeElems, printElems, List.length_cons, List.length_append] at *
    omega

theorem sizeField_le : ∀ f : String × Json, sizeField f ≤ 2 * (printField f).length
  | (k, v) => by
    have h1 := sizeJ_le v
    simp only [sizeField, printField, List.length_cons, List.length_append] at *
    omega

theorem sizeFields_le : ∀ fs : List (String × Json), sizeFields fs ≤ 2 * (printFields fs).length + 1
  | [] => by simp [sizeFields, printFields]
  | f :: fs => by
    have h1 := sizeField_le f
    have h2 := sizeFields_le fs
    simp only [sizeFields, printFields, List.length_cons, List.length_append] at *
    omega

end

theorem printJson_head (v : Json) : ∃ c t, printJson v = c :: t ∧ isWs c = false ∧ c ≠ ']' := by
  cases v with
  | null => exact ⟨'n', _, rfl, by decide, by decide⟩
  | bool b => cases b with
    | true => exact ⟨'t', _, rfl, by decide, by decide⟩
    | false => exact ⟨'f', _, rfl, by decide, by decide⟩
  | num n =>
    by_cases h : n < 0
    · exact ⟨'-', natChars n.natAbs, by simp [printJson, intChars, h], by decide, by decide⟩
    · obtain ⟨c, t, hct, hcd⟩ := natChars_cons n.natAbs
      exact ⟨c, t, by simp [printJson, intChars, h, hct],
        isDigit_not_ws c hcd, isDigit_ne c ']' hcd (by decide)⟩
  | str s => exact ⟨'"', _, rfl, by decide, by decide⟩
  | arr vs => cases vs with
    | nil => exact ⟨'[', _, rfl, by decide, by decide⟩
    | cons v vs => exact ⟨'[', _, rfl, by decide, by decide⟩
  | obj fs => cases fs with
    | nil => exact ⟨'\x7b', _, rfl, by decide, by decide⟩
    | cons f fs => exact ⟨'\x7b', _, rfl, by decide, by decide⟩

theorem headNotDigit_elems (vs : List Json) (rest : List Char) :
    headNotDigit (printElems vs ++ ']' :: rest) = true := by
  cases vs <;> simp [printElems, headNotDigit]

theorem headNotDigit_fields (fs : List (String × Json)) (rest : List Char) :
    headNotDigit (printFields fs ++ '\x7d' :: rest) = true := by
  cases fs <;> simp [printFields, headNotDigit]


theorem sizeJ_pos (v : Json) : 1 ≤ sizeJ v := by
  cases v <;> simp [sizeJ]

mutual

theorem parseVal_print : ∀ (v : Json) (fuel : Nat) (rest : List Char),
    sizeJ v ≤ fuel → headNotDigit rest = true →
    parseVal fuel (printJson v ++ rest) = some (v, rest)
  | .null, fuel, rest => fun hf _ => by
    obtain ⟨f, rfl⟩ : ∃ f, fuel = f + 1 := ⟨fuel - 1, by have := sizeJ_pos .null; omega⟩
    simp [printJson, parseVal, skipWs, isWs]
  | .bool true, fuel, rest => fun hf _ => by
    obtain ⟨f, rfl⟩ : ∃ f, fuel = f + 1 := ⟨fuel - 1, by have := sizeJ_pos (.bool true); omega⟩
    simp [printJson, parseVal, skipWs, isWs]
  | .bool false, fuel, rest => fun hf _ => by
    obtain ⟨f, rfl⟩ : ∃ f, fuel = f + 1 := ⟨fuel - 1, by have := sizeJ_pos (.bool false); omega⟩
    simp [printJson, parseVal, skipWs, isWs]
  | .num n, fuel, rest => fun hf hr => by
    obtain ⟨f, rfl⟩ : ∃ f, fuel = f + 1 := ⟨fuel - 1, by have := sizeJ_pos (.num n); omega⟩
    by_cases hneg : n < 0
    · have hds := takeDigits_append (natChars n.natAbs) rest (natChars_digits _) hr
      have hemp : (natChars n.natAbs).isEmpty = false := by
        obtain ⟨c, t, hct, _⟩ := natChars_cons n.natAbs
        simp [hct]
      have hcast : -((digitsVal (natChars n.natAbs) : Nat) : Int) = n := by
        rw [digitsVal_natChars]; omega
      simp only [printJson, intChars, if_pos hneg, List.cons_append]
      simp [parseVal, skipWs, isWs, hds, hemp, hcast]
    · obtain ⟨c, t, hct, hcd⟩ := natChars_cons n.natAbs
      have hws := isDigit_not_ws c hcd
      have h1 : c ≠ 'n' := isDigit_ne c 'n' hcd (by decide)
      have h2 : c ≠ 't' := isDigit_ne c 't' hcd (by decide)
      have h3 : c ≠ 'f' := isDigit_ne c 'f' hcd (by decide)
      have h4 : c ≠ '"' := isDigit_ne c '"' hcd (by decide)
      have h5 : c ≠ '-' := isDigit_ne c '-' hcd (by decide)
      have hx : printJson (.num n) ++ rest = c :: (t ++ rest) := by
        simp [printJson, intChars, hneg, hct]
      have hds : takeDigits (c :: (t ++ rest)) = (natChars n.natAbs, rest) := by
        rw [show c :: (t ++ rest) = natChars n.natAbs ++ rest from by rw [hct]; rfl]
        exact takeDigits_append _ _ (natChars_digits _) hr
      have hcast : ((digitsVal (natChars n.natAbs) : Nat) : Int) = n := by
        rw [digitsVal_natChars]; omega
      rw [hx]
      simp [parseVal, skipWs_cons _ _ hws, h1, h2, h3, h4, h5, hcd, hds, hcast]
  | .str s, fuel, rest => fun hf _ => by
    obtain ⟨f, rfl⟩ : ∃ f, fuel = f + 1 := ⟨fuel - 1, by have := sizeJ_pos (.str s); omega⟩
    have hx : printJson (.str s) ++ rest = '"' :: (escapeList s.data ++ '"' :: rest) := by
      simp [printJson]
    rw [hx]
    have hlen : s.data.length + 1 ≤ (escapeList s.data ++ '"' :: rest).length + 1 := by
      have := escapeList_length s.data
      simp only [List.length_append, List.length_cons]
      omega
    have hbody := parseStringBody_escape s.data ((escapeList s.data ++ '"' :: rest).length + 1) rest hlen
    simp only [List.length_append, List.length_cons] at hbody
    simp [parseVal, skipWs, isWs, hbody, mk_data]
  | .arr [], fuel, rest => fun hf _ => by
    obtain ⟨f, rfl⟩ : ∃ f, fuel = f + 1 := ⟨fuel - 1, by have := sizeJ_pos (.arr []); omega⟩
    simp [printJson, parseVal, skipWs, isWs]
  | .arr (v :: vs), fuel, rest => fun hf hr => by
    obtain ⟨f, rfl⟩ : ∃ f, fuel = f + 1 := ⟨fuel - 1, by have := sizeJ_pos (.arr (v :: vs)); omega⟩
    have hsz : sizeJ (.arr (v :: vs)) = 2 + sizeJ v + sizeElems vs := by
      simp [sizeJ, sizeElems]; omega
    have hsv : sizeJ v ≤ f := by rw [hsz] at hf; omega
    have hse : sizeElems vs ≤ f := by rw [hsz] at hf; omega
    obtain ⟨c0, t0, hct, hws0, hne0⟩ := printJson_head v
    have hx : printJson (.arr (v :: vs)) ++ rest
        = '[' :: (printJson v ++ (printElems vs ++ ']' :: rest)) := by
      simp [printJson]
    rw [hx]
    have hpeek : skipWs (printJson v ++ (printElems vs ++ ']' :: rest))
        = c0 :: (t0 ++ (printElems vs ++ ']' :: rest)) := by
      rw [hct, List.cons_append]
      exact skipWs_cons _ _ hws0
    have hv := parseVal_print v f (printElems vs ++ ']' :: rest) hsv (headNotDigit_elems vs rest)
    have hvs := parseElems_print vs f rest hse
    simp [parseVal, skipWs, isWs, hpeek, hne0, hv, hvs]
  | .obj [], fuel, rest => fun hf _ => by
    obtain ⟨f, rfl⟩ : ∃ f, fuel = f + 1 := ⟨fuel - 1, by have := sizeJ_pos (.obj []); omega⟩
    simp [printJson, parseVal, skipWs, isWs]
  | .obj (fd :: fs), fuel, rest => fun hf hr => by
    obtain ⟨f, rfl⟩ : ∃ f, fuel = f + 1 := ⟨fuel - 1, by have := sizeJ_pos (.obj (fd :: fs)); omega⟩
    have hsz : sizeJ (.obj (fd :: fs)) = 2 + sizeField fd + sizeFields fs := by
      simp [sizeJ, sizeFields]; omega
    have hsf : sizeField fd ≤ f := by rw [hsz] at hf; omega
    have hsfs : sizeFields fs ≤ f := by rw [hsz] at hf; omega
    have hx : printJson (.obj (fd :: fs)) ++ rest
        = '\x7b' :: (printField fd ++ (printFields fs ++ '\x7d' :: rest)) := by
      simp [printJson]
    rw [hx]
    have hfd := parseField_print fd f (printFields fs ++ '\x7d' :: rest) hsf
      (headNotDigit_fields fs rest)
    have hfs := parseFields_print fs f rest hsfs
    have hpeek : skipWs (printField fd ++ (printFields fs ++ '\x7d' :: rest))
        = '"' :: ((escapeList fd.1.data ++ ['"', ':'] ++ printJson fd.2)
            ++ (printFields fs ++ '\x7d' :: rest)) := by
      rw [show printField fd = '"' :: (escapeList fd.1.data ++ ['"', ':'] ++ printJson fd.2) from by
        cases fd; simp [printField]]
      rw [List.cons_append]
      exact skipWs_cons _ _ (by decide)
    simp [parseVal, skipWs, isWs, hpeek, hfd, hfs]

theorem parseElems_print : ∀ (vs : List Json) (fuel : Nat) (rest : List Char),
    sizeElems vs ≤ fuel →
    parseElems fuel (printElems vs ++ ']' :: rest) = some (vs, rest)
  | [], fuel, rest => fun hf => by
    obtain ⟨f, rfl⟩ : ∃ f, fuel = f + 1 := ⟨fuel - 1, by simp [sizeElems] at hf; omega⟩
    simp [printElems, parseElems, skipWs, isWs]
  | v :: vs, fuel, rest => fun hf => by
    obtain ⟨f, rfl⟩ : ∃ f, fuel = f + 1 := ⟨fuel - 1, by simp [sizeElems] at hf; omega⟩
    have hsv : sizeJ v ≤ f := by simp [sizeElems] at hf; omega
    have hse : sizeElems vs ≤ f := by simp [sizeElems] at hf; omega
    have hx : printElems (v :: vs) ++ ']' :: rest
        = ',' :: (printJson v ++ (printElems vs ++ ']' :: rest)) := by
      simp [printElems]
    rw [hx]
    have hv := parseVal_print v f (printElems vs ++ ']' :: rest) hsv (headNotDigit_elems vs rest)
    have hvs := parseElems_print vs f rest hse
    simp [parseElems, skipWs, isWs, hv, hvs]

theorem parseField_print : ∀ (fd : String × Json) (fuel : Nat) (rest : List Char),
    sizeField fd ≤ fuel → headNotDigit rest = true →
    parseField fuel (printField fd ++ rest) = some (fd, rest)
  | (k, v), fuel, rest => fun hf hr => by
    obtain ⟨f, rfl⟩ : ∃ f, fuel = f + 1 := ⟨fuel - 1, by simp [sizeField] at hf; omega⟩
    have hsv : sizeJ v ≤ f := by simp [sizeField] at hf; omega
    have hx : printField (k, v) ++ rest
        = '"' :: (escapeList k.data ++ '"' :: (':' :: (printJson v ++ rest))) := by
      simp [printField]
    rw [hx]
    have hlen : k.data.length + 1
        ≤ (escapeList k.data ++ '"' :: (':' :: (printJson v ++ rest))).length + 1 := by
      have := escapeList_length k.data
      simp only [List.length_append, List.length_cons]
      omega
    have hkey := parseStringBody_escape k.data
      ((escapeList k.data ++ '"' :: (':' :: (printJson v ++ rest))).length + 1)
      (':' :: (printJson v ++ rest)) hlen
    simp only [List.length_append, List.length_cons] at hkey
    have hv := parseVal_print v f rest hsv hr
    simp [parseField, skipWs, isWs, hkey, hv, mk_data]

theorem parseFields_print : ∀ (fs : List (String × Json)) (fuel : Nat) (rest : List Char),
    sizeFields fs ≤ fuel →
    parseFields fuel (printFields fs ++ '\x7d' :: rest) = some (fs, rest)
  | [], fuel, rest => fun hf => by
    obtain ⟨f, rfl⟩ : ∃ f, fuel = f + 1 := ⟨fuel - 1, by simp [sizeFields] at hf; omega⟩
    simp [printFields, parseFields, skipWs, isWs]
  | fd :: fs, fuel, rest => fun hf => by
    obtain ⟨f, rfl⟩ : ∃ f, fuel = f + 1 := ⟨fuel - 1, by simp [sizeFields] at hf; omega⟩
    have hsf : sizeField fd ≤ f := by simp [sizeFields] at hf; omega
    have hsfs : sizeFields fs ≤ f := by simp [sizeFields] at hf; omega
    have hx : printFields (fd :: fs) ++ '\x7d' :: rest
        = ',' :: (printField fd ++ (printFields fs ++ '\x7d' :: rest)) := by
      simp [printFields]
    rw [hx]
    have hfd := parseField_print fd f (printFields fs ++ '\x7d' :: rest) hsf
      (headNotDigit_fields fs rest)
    have hfs := parseFields_print fs f rest hsfs
    simp [parseFields, skipWs, isWs, hfd, hfs]

end

theorem parseJson_printString (v : Json) : parseJson (printString v) = some v := by
  unfold parseJson printString
  have hsz : sizeJ v ≤ 2 * (printJson v).length + 1 := le_trans (sizeJ_le v) (by omega)
  have h := parseVal_print v (2 * (printJson v).length + 1) [] hsz (by rfl)
  rw [List.append_nil] at h
  rw [show (String.mk (printJson v)).data = printJson v from rfl]
  rw [h]
  simp [skipWs]

/-- Command line configuration of the tool, one field per flag of
main.go, with the declared default values. -/
structure Config where
  url : String := "http://localhost:9200"
  insecureSkipVerify : Bool := false
  index : String := ""
  settingsFile : String := ""
  mappingsFile : String := ""
  dataFile : String := ""
  batch : Int := 1000
  deleteIndex : Bool := false
  addToIndex : Bool := false
  user : String := ""
  pass : String := ""
  apiKey : String := ""

/-- Outcome of the two early validation checks in main, lines 44 to
53; both print the usage text and exit with status 1. -/
inductive UsageError where
  | authConflict
  | missingRequired
deriving DecidableEq

/-- The early flag validation in main: basic auth and API key are
mutually exclusive, and index and data are required. -/
def validateConfig (c : Config) : Option UsageError :=
  if (c.user ≠ "" ∨ c.pass ≠ "") ∧ c.apiKey ≠ "" then some .authConflict
  else if c.index = "" ∨ c.dataFile = "" then some .missingRequired
  else none

/-- The fields of the Elasticsearch client configuration that the
program sets; an empty string means the credential is absent. -/
structure EsClientConfig where
  addresses : List String
  insecureSkipVerify : Bool
  username : String
  password : String
  apiKey : String
deriving DecidableEq

/-- Construction of the client configuration, lines 56 to 74 of
main.go: basic auth is set only when both user and pass are
non-empty, the API key is set whenever it is non-empty. -/
def buildClientConfig (c : Config) : EsClientConfig :=
  let cfg : EsClientConfig :=
    { addresses := [c.url], insecureSkipVerify := c.insecureSkipVerify,
      username := "", password := "", apiKey := "" }
  let cfg := if c.user ≠ "" ∧ c.pass ≠ "" then
    { cfg with username := c.user, password := c.pass } else cfg
  if c.apiKey ≠ "" then { cfg with apiKey := c.apiKey } else cfg

/-- The index existence probe, function indexExists of main.go:
status 200 means present, 404 means absent, any other status is an
error; none models a transport error from the request itself. -/
def indexExists (status : Option Int) : Except String Bool :=
  match status with
  | none => .error "transport"
  | some s =>
    if s = 200 then .ok true
    else if s = 404 then .ok false
    else .error "unexpected status code"

/-- What the lifecycle switch of main, lines 82 to 117, decides to
do, recorded as flags. -/
structure LifecycleDecision where
  warnNothingToDelete : Bool
  doDelete : Bool
  doCreate : Bool
  fatal : Bool
deriving DecidableEq

/-- Transcription of the lifecycle switch.  When the index exists,
both delete branches clear the exists flag so the create block below
runs; the default branch calls log.Fatal, which exits the process.
When the index is absent, a set delete flag produces the warning that
there is nothing to delete, and the index is always created. -/
def lifecycleDecision (indexPresent add del : Bool) : LifecycleDecision :=
  if indexPresent then
    if add && del then ⟨false, true, true, false⟩
    else if del then ⟨false, true, true, false⟩
    else if add then ⟨false, false, false, false⟩
    else ⟨false, false, false, true⟩
  else
    ⟨del, false, true, false⟩

/-- Modelled from the spec: the action column of the decision table
in section 4.3 of the specification. -/
inductive SpecAction where
  | create
  | warnAndCreate
  | append
  | deleteAndCreate
  | fatalError
deriving DecidableEq

/-- Modelled from the spec: the transition table of section 4.3, row
by row, indexed by (current state, add, delete). -/
def specTable (present add del : Bool) : SpecAction :=
  match present, add, del with
  | false, false, false => .create
  | false, true,  false => .create
  | false, false, true  => .warnAndCreate
  | false, true,  true  => .create
  | true,  true,  false => .append
  | true,  false, true  => .deleteAndCreate
  | true,  true,  true  => .deleteAndCreate
  | true,  false, false => .fatalError

/-- View of a lifecycle decision as one of the actions named by the
spec table. -/
def LifecycleDecision.action (d : LifecycleDecision) : SpecAction :=
  if d.fatal then .fatalError
  else if d.doDelete && d.doCreate then .deleteAndCreate
  else if d.warnNothingToDelete && d.doCreate then .warnAndCreate
  else if d.doCreate then .create
  else .append

/-- Transcription of buildCreateIndexBody, lines 198 to 219 of
main.go: the settings and mappings strings default to empty objects
and are replaced by the raw file contents when the corresponding path
is supplied; none models the fatal exit taken when a supplied file
cannot be read.  No JSON parsing happens here. -/
def buildCreateIndexBody (fs : String → Option String) (settingsFile mappingsFile : String) :
    Option String :=
  match (if settingsFile = "" then some "\x7b\x7d" else fs settingsFile) with
  | none => none
  | some settings =>
    match (if mappingsFile = "" then some "\x7b\x7d" else fs mappingsFile) with
    | none => none
    | some mappings =>
      some ("\x7b\"settings\": " ++ settings ++ ", \"mappings\": " ++ mappings ++ "\x7d")

/-- One action line of the bulk request: the serialization of the
one-key map sending index to the one-key map sending the underscore
index field to the index name, as json.Marshal renders it. -/
def metaLine (index : String) : List Char :=
  printJson (.obj [("index", .obj [("_index", .str index)])])

/-- The body of one bulk request, built exactly like the buffer loop
of main, lines 137 to 147: for every document of the batch an action
line, a newline, the marshalled document and a newline. -/
def bulkBody (index : String) (docs : List Json) : List Char :=
  docs.foldl (fun buf d => buf ++ metaLine index ++ ['\n'] ++ printJson d ++ ['\n']) []

/-- Result of the bulk upload loop.  The list in every constructor
holds the bodies of the bulk requests issued so far, in order.
outOfFuel means the supplied fuel ran out before the loop stopped. -/
inductive LoopResult where
  | done (requests : List (List Char))
  | fatalErr (requests : List (List Char))
  | panicked (requests : List (List Char))
  | outOfFuel (requests : List (List Char))
deriving DecidableEq

/-- True when the loop has stopped, normally, fatally or by a
runtime panic. -/
def LoopResult.finished : LoopResult → Bool
  | .outOfFuel _ => false
  | _ => true

/-- Transcription of the upload loop of main, lines 131 to 161, with
the Go int arithmetic kept in Int.  The oracle says for each bulk
request in turn whether the transport succeeded; a false answer
models a non-nil error from es.Bulk, which checkErr turns into a
fatal exit.  The Go slice expression from i to e panics when its
bounds are invalid, which the bounds check reproduces. -/
def bulkLoop (oracle : Nat → Bool) (index : String) (batch : Int) (records : List Json) :
    Nat → Int → Nat → List (List Char) → LoopResult
  | 0, _, _, acc => .outOfFuel acc
  | fuel + 1, i, k, acc =>
    let total : Int := records.length
    if i < total then
      let e0 : Int := i + batch
      let e : Int := if e0 > total then total else e0
      if 0 ≤ i ∧ i ≤ e then
        let body := bulkBody index ((records.drop i.toNat).take (e - i).toNat)
        if oracle k then
          bulkLoop oracle index batch records fuel (i + batch) (k + 1) (acc ++ [body])
        else .fatalErr (acc ++ [body])
      else .panicked acc
    else .done acc

/-- Run the upload loop from its initial state. -/
def runUpload (oracle : Nat → Bool) (index : String) (batch : Int) (records : List Json)
    (fuel : Nat) : LoopResult :=
  bulkLoop oracle index batch records fuel 0 0 []

/-- Fueled chunking of a list into consecutive slices of length B,
the reference shape of the batches. -/
def chunksAux {α : Type} (B : Nat) : Nat → List α → List (List α)
  | 0, _ => []
  | fuel + 1, l =>
    if B = 0 then [] else if l.isEmpty then []
    else l.take B :: chunksAux B fuel (l.drop B)

/-- The consecutive batches of size B of a list; meaningful for
positive B. -/
def chunks {α : Type} (B : Nat) (l : List α) : List (List α) := chunksAux B l.length l

/-- The json.Unmarshal of the data file into a Go slice of string
keyed maps: the top level value must be an array whose elements are
objects or null. -/
def unmarshalRecords (s : String) : Option (List Json) :=
  match parseJson s with
  | some (Json.arr vs) =>
    if vs.all (fun v => match v with | .obj _ => true | .null => true | _ => false)
    then some vs else none
  | _ => none

/-- Environment of one run: the file system and the canned responses
of the Elasticsearch cluster. -/
structure Env where
  fs : String → Option String
  existsStatus : Option Int
  deleteTransportError : Bool
  deleteIsError : Bool
  createTransportError : Bool
  bulkOracle : Nat → Bool

/-- Observable requests sent to the cluster, in order. -/
inductive Event where
  | existsCheck
  | deleteRequest
  | createRequest (body : String)
  | bulkRequest (body : List Char)
deriving DecidableEq

/-- How the modelled process ends. -/
inductive ExitKind where
  | success
  | usage
  | fatal
  | panicked
  | outOfFuel
deriving DecidableEq

/-- The tail of main after index management: read the data file,
parse it as an array of objects and run the upload loop.  Any failure
is fatal; the trace argument carries the requests already issued. -/
def loadAndUpload (c : Config) (env : Env) (fuel : Nat) (tr : List Event) :
    ExitKind × List Event :=
  match env.fs c.dataFile with
  | none => (.fatal, tr)
  | some content =>
    match unmarshalRecords content with
    | none => (.fatal, tr)
    | some records =>
      match runUpload env.bulkOracle c.index c.batch records fuel with
      | .done reqs => (.success, tr ++ reqs.map Event.bulkRequest)
      | .fatalErr reqs => (.fatal, tr ++ reqs.map Event.bulkRequest)
      | .panicked reqs => (.panicked, tr ++ reqs.map Event.bulkRequest)
      | .outOfFuel reqs => (.outOfFuel, tr ++ reqs.map Event.bulkRequest)

/-- End to end run of main against an environment: flag validation,
existence probe, lifecycle decision, optional delete and create, then
data load and upload.  Returns the exit kind and the ordered trace of
requests sent to the cluster. -/
def runProgram (c : Config) (env : Env) (fuel : Nat) : ExitKind × List Event :=
  match validateConfig c with
  | some _ => (.usage, [])
  | none =>
    match indexExists env.existsStatus with
    | .error _ => (.fatal, [.existsCheck])
    | .ok ex =>
      let d := lifecycleDecision ex c.addToIndex c.deleteIndex
      if d.fatal then (.fatal, [.existsCheck])
      else if d.doDelete && (env.deleteTransportError || env.deleteIsError) then
        (.fatal, [.existsCheck, .deleteRequest])
      else
        let tr1 : List Event := .existsCheck :: (if d.doDelete then [.deleteRequest] else [])
        if d.doCreate then
          match buildCreateIndexBody env.fs c.settingsFile c.mappingsFile with
          | none => (.fatal, tr1)
          | some body =>
            if env.createTransportError then (.fatal, tr1 ++ [.createRequest body])
            else loadAndUpload c env fuel (tr1 ++ [.createRequest body])
        else loadAndUpload c env fuel tr1


theorem chunksAux_fuel {α : Type} (B : Nat) :
    ∀ (f1 f2 : Nat) (l : List α), l.length ≤ f1 → l.length ≤ f2 →
      chunksAux B f1 l = chunksAux B f2 l := by
  intro f1
  induction f1 with
  | zero =>
    intro f2 l h1 _
    have : l = [] := List.length_eq_zero.mp (by omega)
    subst this
    cases f2 <;> simp [chunksAux]
  | succ f1 ih =>
    intro f2 l h1 h2
    cases f2 with
    | zero =>
      have : l = [] := List.length_eq_zero.mp (by omega)
      subst this
      simp [chunksAux]
    | succ f2 =>
      by_cases hB : B = 0
      · simp [chunksAux, hB]
      · by_cases hl : l.isEmpty
        · simp [chunksAux, hB, hl]
        · have hlen : l.length ≠ 0 := by
            cases l with
            | nil => simp at hl
            | cons a l => simp
          simp only [chunksAux, if_neg hB, if_neg (by simp [hl] : ¬l.isEmpty = true)]
          rw [ih f2 (l.drop B) (by simp [List.length_drop]; omega)
            (by simp [List.length_drop]; omega)]

theorem chunks_cons {α : Type} (B : Nat) (hB : B ≠ 0) (l : List α) (hl : l ≠ []) :
    chunks B l = l.take B :: chunks B (l.drop B) := by
  unfold chunks
  have hlen : l.length ≠ 0 := by simp [hl]
  obtain ⟨n, hn⟩ : ∃ n, l.length = n + 1 := ⟨l.length - 1, by omega⟩
  rw [hn]
  have hne : ¬l.isEmpty = true := by simp [hl]
  simp only [chunksAux, if_neg hB, if_neg hne]
  rw [chunksAux_fuel B n (l.drop B).length (l.drop B)
    (by simp [List.length_drop]; omega) le_rfl]

theorem chunks_ne_nil {α : Type} (B : Nat) (hB : B ≠ 0) (l : List α) (hl : l ≠ []) :
    chunks B l ≠ [] := by
  rw [chunks_cons B hB l hl]
  simp

theorem chunks_join {α : Type} (B : Nat) (hB : B ≠ 0) :
    ∀ (n : Nat) (l : List α), l.length ≤ n → (chunks B l).flatten = l := by
  intro n
  induction n with
  | zero =>
    intro l h
    have : l = [] := List.length_eq_zero.mp (by omega)
    subst this
    simp [chunks, chunksAux]
  | succ n ih =>
    intro l h
    by_cases hl : l = []
    · subst hl; simp [chunks, chunksAux]
    · rw [chunks_cons B hB l hl]
      have hlen : l.length ≠ 0 := by simp [hl]
      simp only [List.flatten_cons]
      rw [ih (l.drop B) (by simp [List.length_drop]; omega)]
      exact List.take_append_drop B l

theorem chunks_length {α : Type} (B : Nat) (hB : B ≠ 0) :
    ∀ (n : Nat) (l : List α), l.length ≤ n →
      (chunks B l).length = (l.length + B - 1) / B := by
  intro n
  induction n with
  | zero =>
    intro l h
    have : l = [] := List.length_eq_zero.mp (by omega)
    subst this
    simp [chunks, chunksAux]
    exact (Nat.div_eq_of_lt (by omega)).symm
  | succ n ih =>
    intro l h
    by_cases hl : l = []
    · subst hl
      simp [chunks, chunksAux]
      exact (Nat.div_eq_of_lt (by omega)).symm
    · rw [chunks_cons B hB l hl]
      have hlen : l.length ≠ 0 := by simp [hl]
      simp only [List.length_cons]
      rw [ih (l.drop B) (by simp [List.length_drop]; omega)]
      simp only [List.length_drop]
      rcases Nat.lt_or_ge B l.length with hc | hc
      · have h1 : l.length - B + B - 1 = l.length - 1 := by omega
        have h2 : l.length + B - 1 = (l.length - 1) + B := by omega
        rw [h1, h2, Nat.add_div_right _ (by omega)]
      · have h1 : l.length - B = 0 := by omega
        rw [h1]
        have h2 : (0 + B - 1) / B = 0 := Nat.div_eq_of_lt (by omega)
        rw [h2]
        exact (Nat.div_eq_of_lt_le (by omega) (by omega)).symm

theorem chunks_batch_le {α : Type} (B : Nat) (hB : B ≠ 0) :
    ∀ (n : Nat) (l : List α), l.length ≤ n →
      ∀ c ∈ chunks B l, c.length ≤ B := by
  intro n
  induction n with
  | zero =>
    intro l h c hc
    have : l = [] := List.length_eq_zero.mp (by omega)
    subst this
    simp [chunks, chunksAux] at hc
  | succ n ih =>
    intro l h c hc
    by_cases hl : l = []
    · subst hl; simp [chunks, chunksAux] at hc
    · rw [chunks_cons B hB l hl] at hc
      have hlen : l.length ≠ 0 := by simp [hl]
      rcases List.mem_cons.mp hc with rfl | hc
      · simp [List.length_take]
      · exact ih (l.drop B) (by simp [List.length_drop]; omega) c hc

theorem chunks_full {α : Type} (B : Nat) (hB : B ≠ 0) :
    ∀ (n : Nat) (l : List α), l.length ≤ n →
      ∀ c ∈ (chunks B l).dropLast, c.length = B := by
  intro n
  induction n with
  | zero =>
    intro l h c hc
    have : l = [] := List.length_eq_zero.mp (by omega)
    subst this
    simp [chunks, chunksAux] at hc
  | succ n ih =>
    intro l h c hc
    by_cases hl : l = []
    · subst hl; simp [chunks, chunksAux] at hc
    · rw [chunks_cons B hB l hl] at hc
      have hlen : l.length ≠ 0 := by simp [hl]
      by_cases hd : l.drop B = []
      · rw [hd] at hc
        simp [chunks, chunksAux] at hc
      · have hcne := chunks_ne_nil B hB (l.drop B) hd
        rw [List.dropLast_cons_of_ne_nil hcne] at hc
        rcases List.mem_cons.mp hc with rfl | hc
        · have hdlen : (l.drop B).length ≠ 0 := fun h0 => hd (List.length_eq_zero.mp h0)
          have hBl : B < l.length := by
            have := List.length_drop B l
            omega
          simp [List.length_take]
          omega
        · exact ih (l.drop B) (by simp [List.length_drop]; omega) c hc


theorem bulkLoop_done (oracle : Nat → Bool) (hor : ∀ k, oracle k = true)
    (index : String) (B : Int) (hB : 1 ≤ B) (records : List Json) :
    ∀ (n : Nat) (rem : List Json) (i : Int) (k : Nat) (acc : List (List Char)) (fuel : Nat),
      rem.length ≤ n → 0 ≤ i → rem = records.drop i.toNat → rem.length + 1 ≤ fuel →
      bulkLoop oracle index B records fuel i k acc
        = .done (acc ++ (chunks B.toNat rem).map (bulkBody index)) := by
  intro n
  induction n with
  | zero =>
    intro rem i k acc fuel hn hi hrem hfuel
    have hrnil : rem = [] := List.length_eq_zero.mp (by omega)
    obtain ⟨f, rfl⟩ : ∃ f, fuel = f + 1 := ⟨fuel - 1, by omega⟩
    have hrlen : rem.length = records.length - i.toNat := by rw [hrem, List.length_drop]
    have hnlt : ¬ i < (records.length : Int) := by
      subst hrnil
      simp at hrlen
      omega
    simp [bulkLoop, hnlt, hrnil, chunks, chunksAux]
  | succ n ih =>
    intro rem i k acc fuel hn hi hrem hfuel
    by_cases hrnil : rem = []
    · obtain ⟨f, rfl⟩ : ∃ f, fuel = f + 1 := ⟨fuel - 1, by omega⟩
      have hrlen : rem.length = records.length - i.toNat := by rw [hrem, List.length_drop]
      have hnlt : ¬ i < (records.length : Int) := by
        subst hrnil
        simp at hrlen
        omega
      simp [bulkLoop, hnlt, hrnil, chunks, chunksAux]
    · obtain ⟨f, rfl⟩ : ∃ f, fuel = f + 1 := ⟨fuel - 1, by omega⟩
      have hrlen : rem.length = records.length - i.toNat := by rw [hrem, List.length_drop]
      have hrpos : rem.length ≠ 0 := by simp [hrnil]
      have hlt : i < (records.length : Int) := by omega
      have hBnat : B.toNat ≠ 0 := by omega
      have hcond : 0 ≤ i ∧ i ≤ (if i + B > (records.length : Int) then (records.length : Int) else i + B) := by
        refine ⟨hi, ?_⟩
        by_cases hc : i + B > (records.length : Int) <;> simp [hc] <;> omega
      have htake : ((if i + B > (records.length : Int) then (records.length : Int) else i + B) - i).toNat
          = min B.toNat rem.length := by
        by_cases hc : i + B > (records.length : Int) <;> simp [hc] <;> omega
      have hbatch : (records.drop i.toNat).take (min B.toNat rem.length) = rem.take B.toNat := by
        rw [← hrem]
        exact List.take_eq_take.mpr (by omega)
      have hdrop : records.drop ((i + B).toNat) = rem.drop B.toNat := by
        rw [hrem, List.drop_drop]
        congr 1
        omega
      have hrec := ih (rem.drop B.toNat) (i + B) (k + 1)
        (acc ++ [bulkBody index (rem.take B.toNat)]) f
        (by simp [List.length_drop]; omega) (by omega) hdrop.symm
        (by simp [List.length_drop]; omega)
      rw [chunks_cons B.toNat hBnat rem hrnil]
      simp only [bulkLoop, if_pos hlt, if_pos hcond, htake, hbatch, hor k, if_pos]
      rw [hrec]
      simp



theorem bulkLoop_fatal (oracle : Nat → Bool) (index : String) (B : Int) (hB : 1 ≤ B)
    (records : List Json) :
    ∀ (n : Nat) (rem : List Json) (i : Int) (k : Nat) (acc : List (List Char)) (fuel : Nat)
      (m : Nat),
      rem.length ≤ n → 0 ≤ i → rem = records.drop i.toNat → rem.length + 1 ≤ fuel →
      m < (chunks B.toNat rem).length →
      (∀ j, j < m → oracle (k + j) = true) → oracle (k + m) = false →
      bulkLoop oracle index B records fuel i k acc
        = .fatalErr (acc ++ ((chunks B.toNat rem).map (bulkBody index)).take (m + 1)) := by
  intro n
  induction n with
  | zero =>
    intro rem i k acc fuel m hn hi hrem hfuel hm hbef hfail
    have hrnil : rem = [] := List.length_eq_zero.mp (by omega)
    rw [hrnil] at hm
    simp [chunks, chunksAux] at hm
  | succ n ih =>
    intro rem i k acc fuel m hn hi hrem hfuel hm hbef hfail
    by_cases hrnil : rem = []
    · rw [hrnil] at hm
      simp [chunks, chunksAux] at hm
    · obtain ⟨f, rfl⟩ : ∃ f, fuel = f + 1 := ⟨fuel - 1, by omega⟩
      have hrlen : rem.length = records.length - i.toNat := by rw [hrem, List.length_drop]
      have hrpos : rem.length ≠ 0 := by simp [hrnil]
      have hlt : i < (records.length : Int) := by omega
      have hBnat : B.toNat ≠ 0 := by omega
      have hcond : 0 ≤ i ∧ i ≤ (if i + B > (records.length : Int) then (records.length : Int) else i + B) := by
        refine ⟨hi, ?_⟩
        by_cases hc : i + B > (records.length : Int) <;> simp [hc] <;> omega
      have htake : ((if i + B > (records.length : Int) then (records.length : Int) else i + B) - i).toNat
          = min B.toNat rem.length := by
        by_cases hc : i + B > (records.length : Int) <;> simp [hc] <;> omega
      have hbatch : (records.drop i.toNat).take (min B.toNat rem.length) = rem.take B.toNat := by
        rw [← hrem]
        exact List.take_eq_take.mpr (by omega)
      rw [chunks_cons B.toNat hBnat rem hrnil]
      cases m with
      | zero =>
        have hk : oracle k = false := by simpa using hfail
        simp only [bulkLoop, if_pos hlt, if_pos hcond, htake, hbatch, hk]
        simp
      | succ m =>
        have hk : oracle k = true := by
          have := hbef 0 (by omega)
          simpa using this
        have hdrop : records.drop ((i + B).toNat) = rem.drop B.toNat := by
          rw [hrem, List.drop_drop]
          congr 1
          omega
        have hmlt : m < (chunks B.toNat (rem.drop B.toNat)).length := by
          rw [chunks_cons B.toNat hBnat rem hrnil] at hm
          simpa using hm
        have hbef2 : ∀ j, j < m → oracle (k + 1 + j) = true := by
          intro j hj
          have := hbef (j + 1) (by omega)
          rw [show k + (j + 1) = k + 1 + j from by omega] at this
          exact this
        have hfail2 : oracle (k + 1 + m) = false := by
          rw [show k + 1 + m = k + (m + 1) from by omega]
          exact hfail
        have hrec := ih (rem.drop B.toNat) (i + B) (k + 1)
          (acc ++ [bulkBody index (rem.take B.toNat)]) f m
          (by simp [List.length_drop]; omega) (by omega) hdrop.symm
          (by simp [List.length_drop]; omega) hmlt hbef2 hfail2
        simp only [bulkLoop, if_pos hlt, if_pos hcond, htake, hbatch, hk, if_pos]
        rw [hrec]
        simp



theorem bulkLoop_zero_batch (oracle : Nat → Bool) (hor : ∀ k, oracle k = true)
    (index : String) (records : List Json) (hne : records ≠ []) :
    ∀ (fuel : Nat) (k : Nat) (acc : List (List Char)),
      (bulkLoop oracle index 0 records fuel 0 k acc).finished = false := by
  intro fuel
  induction fuel with
  | zero => intro k acc; simp [bulkLoop, LoopResult.finished]
  | succ f ih =>
    intro k acc
    have hlen : records.length ≠ 0 := by simp [hne]
    have hlt : (0 : Int) < (records.length : Int) := by omega
    have hng : ¬ ((0 : Int) + 0 > (records.length : Int)) := by omega
    have hcond : (0 : Int) ≤ 0 ∧ (0 : Int) ≤
        (if (0 : Int) + 0 > (records.length : Int) then (records.length : Int) else 0 + 0) :=
      ⟨le_rfl, by split_ifs; omega⟩
    simp only [bulkLoop, if_pos hlt, if_pos hcond, hor k, if_pos]
    have hzz : ((0 : Int) + 0) = 0 := by omega
    rw [hzz]
    exact ih (k + 1) _

theorem bulkLoop_neg_panics (oracle : Nat → Bool) (index : String) (B : Int) (hB : B < 0)
    (records : List Json) (hne : records ≠ []) (fuel : Nat) (hf : 1 ≤ fuel) :
    runUpload oracle index B records fuel = .panicked [] := by
  obtain ⟨f, rfl⟩ : ∃ f, fuel = f + 1 := ⟨fuel - 1, by omega⟩
  have hlen : records.length ≠ 0 := by simp [hne]
  have hlt : (0 : Int) < (records.length : Int) := by omega
  have hng : ¬ ((0 : Int) + B > (records.length : Int)) := by omega
  have hcond : ¬ ((0 : Int) ≤ 0 ∧ (0 : Int) ≤
      (if (0 : Int) + B > (records.length : Int) then (records.length : Int) else 0 + B)) := by
    simp [hng]
    omega
  unfold runUpload
  simp only [bulkLoop, if_pos hlt, if_neg hcond]

/-- C2: with batch size B at least 1 and every transport call
succeeding, the upload loop finishes normally after issuing exactly
one bulk request per batch, the ceiling of N over B many; the batches
are the consecutive slices of the document list: every batch has
length at most B, all batches except possibly the last have length
exactly B, and their in-order concatenation is the document list. -/
theorem claim_C2 (oracle : Nat → Bool) (index : String) (B : Int) (records : List Json)
    (hB : 1 ≤ B) (hor : ∀ k, oracle k = true) :
    runUpload oracle index B records (records.length + 1)
        = .done ((chunks B.toNat records).map (bulkBody index)) ∧
    (chunks B.toNat records).length = (records.length + B.toNat - 1) / B.toNat ∧
    (chunks B.toNat records).flatten = records ∧
    (∀ batch ∈ chunks B.toNat records, batch.length ≤ B.toNat) ∧
    (∀ batch ∈ (chunks B.toNat records).dropLast, batch.length = B.toNat) := by
  have hBnat : B.toNat ≠ 0 := by omega
  refine ⟨?_, ?_, ?_, ?_, ?_⟩
  · exact bulkLoop_done oracle hor index B hB records records.length records 0 0 []
      (records.length + 1) le_rfl le_rfl (by simp) le_rfl
  · exact chunks_length B.toNat hBnat records.length records le_rfl
  · exact chunks_join B.toNat hBnat records.length records le_rfl
  · exact chunks_batch_le B.toNat hBnat records.length records le_rfl
  · exact chunks_full B.toNat hBnat records.length records le_rfl

/-- C2 witness: three documents with batch size two give two
requests, batches of sizes two and one. -/
theorem claim_C2_witness :
    runUpload (fun _ => true) "idx" 2 [Json.null, Json.null, Json.null] 4
        = .done ((chunks 2 [Json.null, Json.null, Json.null]).map (bulkBody "idx")) ∧
    (chunks 2 [Json.null, Json.null, Json.null]).length = (3 + 2 - 1) / 2 ∧
    (chunks 2 [Json.null, Json.null, Json.null]).flatten = [Json.null, Json.null, Json.null] ∧
    (∀ batch ∈ chunks 2 [Json.null, Json.null, Json.null], batch.length ≤ 2) ∧
    (∀ batch ∈ (chunks 2 [Json.null, Json.null, Json.null]).dropLast, batch.length = 2) :=
  claim_C2 (fun _ => true) "idx" 2 [Json.null, Json.null, Json.null] (by decide) (fun _ => rfl)

/-- C8: when the transport of batch k fails and all earlier batches
succeeded, the loop ends fatally right there: the issued requests are
exactly the batches up to and including k, each once, and no batch
after k is ever submitted. -/
theorem claim_C8 (oracle : Nat → Bool) (index : String) (B : Int) (records : List Json)
    (k : Nat) (hB : 1 ≤ B) (hk : k < (chunks B.toNat records).length)
    (hbef : ∀ j, j < k → oracle j = true) (hfail : oracle k = false) :
    runUpload oracle index B records (records.length + 1)
      = .fatalErr (((chunks B.toNat records).map (bulkBody index)).take (k + 1)) := by
  exact bulkLoop_fatal oracle index B hB records records.length records 0 0 []
    (records.length + 1) k le_rfl le_rfl (by simp) le_rfl hk
    (by simpa using hbef) (by simpa using hfail)

/-- C8 witness: three documents with batch size one and a transport
failure on the second request stop the run after two requests. -/
theorem claim_C8_witness :
    runUpload (fun j => j == 0) "idx" 1 [Json.null, Json.null, Json.null] 4
      = .fatalErr (((chunks 1 [Json.null, Json.null, Json.null]).map (bulkBody "idx")).take 2) :=
  claim_C8 (fun j => j == 0) "idx" 1 [Json.null, Json.null, Json.null] 1 (by decide)
    (by decide) (by decide) (by decide)

/-- C10 as amended: the batch size is never validated and reaches the
loop unchecked; for B at least 1 the loop terminates after exactly
the ceiling of N over B requests; for B equal to 0 on a non-empty
document list with successful transport the index never advances and
no amount of fuel finishes the loop; for negative B the first slice
expression has invalid bounds and the loop stops with a runtime
panic instead of looping forever. -/
theorem claim_C10 :
    (∀ (c : Config) (b : Int), validateConfig { c with batch := b } = validateConfig c) ∧
    (∀ (oracle : Nat → Bool) (index : String) (B : Int) (records : List Json),
      1 ≤ B → (∀ k, oracle k = true) →
      (runUpload oracle index B records (records.length + 1)).finished = true ∧
      runUpload oracle index B records (records.length + 1)
        = .done ((chunks B.toNat records).map (bulkBody index)) ∧
      (chunks B.toNat records).length = (records.length + B.toNat - 1) / B.toNat) ∧
    (∀ (oracle : Nat → Bool) (index : String) (records : List Json),
      records ≠ [] → (∀ k, oracle k = true) →
      ∀ fuel, (runUpload oracle index 0 records fuel).finished = false) ∧
    (∀ (oracle : Nat → Bool) (index : String) (B : Int) (records : List Json),
      B < 0 → records ≠ [] → ∀ fuel, 1 ≤ fuel →
      runUpload oracle index B records fuel = .panicked [] ∧
      (runUpload oracle index B records fuel).finished = true) := by
  refine ⟨?_, ?_, ?_, ?_⟩
  · intro c b
    simp [validateConfig]
  · intro oracle index B records hB hor
    have hdone := bulkLoop_done oracle hor index B hB records records.length records 0 0 []
      (records.length + 1) le_rfl le_rfl (by simp) le_rfl
    have hBnat : B.toNat ≠ 0 := by omega
    have hdone2 : runUpload oracle index B records (records.length + 1)
        = LoopResult.done ((chunks B.toNat records).map (bulkBody index)) := hdone
    exact ⟨by rw [hdone2]; rfl, hdone2,
      chunks_length B.toNat hBnat records.length records le_rfl⟩
  · intro oracle index records hne hor fuel
    exact bulkLoop_zero_batch oracle hor index records hne fuel 0 []
  · intro oracle index B records hB hne fuel hf
    have hp := bulkLoop_neg_panics oracle index B hB records hne fuel hf
    exact ⟨hp, by rw [hp]; rfl⟩

/-- C10 witness: instances of the amended statement at concrete
inputs: batch 7 against batch 0 validation, two documents with batch
1, batch 0 and batch -1. -/
theorem claim_C10_witness :
    validateConfig { ({} : Config) with batch := 7 } = validateConfig ({} : Config) ∧
    (runUpload (fun _ => true) "idx" 1 [Json.null, Json.null] 3).finished = true ∧
    (runUpload (fun _ => true) "idx" 0 [Json.null] 9).finished = false ∧
    runUpload (fun _ => true) "idx" (-1) [Json.null] 2 = .panicked [] :=
  ⟨claim_C10.1 {} 7,
   (claim_C10.2.1 (fun _ => true) "idx" 1 [Json.null, Json.null] (by decide) (fun _ => rfl)).1,
   claim_C10.2.2.1 (fun _ => true) "idx" [Json.null] (List.cons_ne_nil _ _) (fun _ => rfl) 9,
   (claim_C10.2.2.2 (fun _ => true) "idx" (-1) [Json.null] (by decide) (List.cons_ne_nil _ _) 2 (by decide)).1⟩

/-- C10 counterexample: for batch size -1 on a non-empty document
list the claimed non-termination is false: the loop stops at once
with a runtime panic from the slice bounds. -/
theorem claim_C10_counterexample :
    runUpload (fun _ => true) "idx" (-1) [Json.obj []] 2 = .panicked [] ∧
    (runUpload (fun _ => true) "idx" (-1) [Json.obj []] 2).finished = true := ⟨rfl, rfl⟩

/-- C1 counterexample: with the index absent and both add and delete
set, the code emits the nothing to delete warning before creating,
while the spec table row for (absent, true, true) demands a plain
create without it. -/
theorem claim_C1_counterexample :
    lifecycleDecision false true true
      = { warnNothingToDelete := true, doDelete := false, doCreate := true, fatal := false } ∧
    (lifecycleDecision false true true).action = .warnAndCreate ∧
    specTable false true true = .create ∧
    (lifecycleDecision false true true).action ≠ specTable false true true := by
  refine ⟨rfl, rfl, rfl, ?_⟩
  decide

/-- Modelled from the spec as amended: identical to the table of
section 4.3 except that the nothing to delete warning fires whenever
the index is absent and the delete flag is set, also together with
add. -/
def specTableAmended (present add del : Bool) : SpecAction :=
  match present, add, del with
  | false, _, false => .create
  | false, _, true  => .warnAndCreate
  | true,  true,  false => .append
  | true,  _, true  => .deleteAndCreate
  | true,  false, false => .fatalError

/-- C1 as amended: the lifecycle decision agrees with the spec table
in every cell once the warning row covers every absent plus delete
combination; and in the fatal cell the program stops after the
existence probe only: nothing is deleted, created or uploaded. -/
theorem claim_C1 :
    (∀ present add del,
      (lifecycleDecision present add del).action = specTableAmended present add del) ∧
    (∀ (c : Config) (env : Env) (fuel : Nat),
      validateConfig c = none → env.existsStatus = some 200 →
      c.addToIndex = false → c.deleteIndex = false →
      runProgram c env fuel = (.fatal, [.existsCheck])) := by
  constructor
  · decide
  · intro c env fuel hv hex hadd hdel
    simp [runProgram, hv, hex, indexExists, hadd, hdel, lifecycleDecision]

def c1Cfg : Config := { index := "idx", dataFile := "d.json" }

def c1Env : Env :=
  { fs := fun _ => none, existsStatus := some 200,
    deleteTransportError := false, deleteIsError := false,
    createTransportError := false, bulkOracle := fun _ => true }

/-- C1 witness: an existing index with neither flag set ends fatally
with only the existence probe on the wire. -/
theorem claim_C1_witness :
    runProgram c1Cfg c1Env 3 = (.fatal, [.existsCheck]) :=
  claim_C1.2 c1Cfg c1Env 3 (by rfl) (by rfl) (by rfl) (by rfl)

/-- C3: with no settings and no mappings file the create body is the
empty objects template, and a supplied file replaces the matching
empty object with its literal contents. -/
theorem claim_C3 :
    (∀ fs : String → Option String,
      buildCreateIndexBody fs "" ""
        = some "\x7b\"settings\": \x7b\x7d, \"mappings\": \x7b\x7d\x7d") ∧
    (∀ (fs : String → Option String) (sf mf S M : String),
      sf ≠ "" → mf ≠ "" → fs sf = some S → fs mf = some M →
      buildCreateIndexBody fs sf mf
        = some ("\x7b\"settings\": " ++ S ++ ", \"mappings\": " ++ M ++ "\x7d")) ∧
    (∀ (fs : String → Option String) (sf S : String),
      sf ≠ "" → fs sf = some S →
      buildCreateIndexBody fs sf ""
        = some ("\x7b\"settings\": " ++ S ++ ", \"mappings\": " ++ "\x7b\x7d" ++ "\x7d")) ∧
    (∀ (fs : String → Option String) (mf M : String),
      mf ≠ "" → fs mf = some M →
      buildCreateIndexBody fs "" mf
        = some ("\x7b\"settings\": " ++ "\x7b\x7d" ++ ", \"mappings\": " ++ M ++ "\x7d")) := by
  refine ⟨fun fs => rfl, ?_, ?_, ?_⟩
  · intro fs sf mf S M hs hm hS hM
    simp [buildCreateIndexBody, hs, hm, hS, hM]
  · intro fs sf S hs hS
    simp [buildCreateIndexBody, hs, hS]
  · intro fs mf M hm hM
    simp [buildCreateIndexBody, hm, hM]

def c3Fs : String → Option String := fun p =>
  if p = "s.json" then some "\x7b\"a\": 1\x7d"
  else if p = "m.json" then some "\x7b\"b\": 2\x7d"
  else none

/-- C3 witness: concrete settings and mappings files are spliced
verbatim into the template. -/
theorem claim_C3_witness :
    buildCreateIndexBody c3Fs "s.json" "m.json"
      = some ("\x7b\"settings\": " ++ "\x7b\"a\": 1\x7d" ++ ", \"mappings\": "
          ++ "\x7b\"b\": 2\x7d" ++ "\x7d") :=
  claim_C3.2.1 c3Fs "s.json" "m.json" "\x7b\"a\": 1\x7d" "\x7b\"b\": 2\x7d"
    (by decide) (by decide) (by rfl) (by rfl)

/-- C4 as amended: building the create body never validates JSON; it
fails, with the fatal read error of the original, exactly when a
supplied settings or mappings file cannot be read, never because of
the contents. -/
theorem claim_C4 (fs : String → Option String) (settingsFile mappingsFile : String) :
    buildCreateIndexBody fs settingsFile mappingsFile = none ↔
      (settingsFile ≠ "" ∧ fs settingsFile = none)
        ∨ (mappingsFile ≠ "" ∧ fs mappingsFile = none) := by
  unfold buildCreateIndexBody
  by_cases hs : settingsFile = "" <;> by_cases hm : mappingsFile = "" <;>
    cases hfs : fs settingsFile <;> cases hfm : fs mappingsFile <;>
      simp [hs, hm, hfs, hfm]

def c4Fs : String → Option String := fun p =>
  if p = "settings.json" then some "xyz"
  else if p = "d.json" then some "[]"
  else none

def c4Cfg : Config := { index := "idx", settingsFile := "settings.json", dataFile := "d.json" }

def c4Env : Env :=
  { fs := c4Fs, existsStatus := some 404,
    deleteTransportError := false, deleteIsError := false,
    createTransportError := false, bulkOracle := fun _ => true }

/-- C4 counterexample: the settings file holds the three letters
xyz, which are not valid JSON, yet no fatal configuration error
occurs: the create request is issued with the malformed body pasted
in and the run even completes successfully. -/
theorem claim_C4_counterexample :
    parseJson "xyz" = none ∧
    runProgram c4Cfg c4Env 1
      = (.success, [.existsCheck,
          .createRequest "\x7b\"settings\": xyz, \"mappings\": \x7b\x7d\x7d"]) :=
  ⟨rfl, rfl⟩

/-- C4 witness: an unreadable settings file makes the body builder
fail, and readable garbage does not. -/
theorem claim_C4_witness :
    (buildCreateIndexBody (fun _ => none) "missing.json" "" = none ↔
      (("missing.json" ≠ "" ∧ (fun _ => (none : Option String)) "missing.json" = none)
        ∨ ("" ≠ "" ∧ (fun _ => (none : Option String)) "" = none))) :=
  claim_C4 (fun _ => none) "missing.json" ""

/-- C5: a run configured with both a basic auth pair and an API key
stops at validation: the auth conflict is reported, usage is printed,
the exit is non-zero and the request trace stays empty. -/
theorem claim_C5 (c : Config) (env : Env) (fuel : Nat)
    (hu : c.user ≠ "") (_hp : c.pass ≠ "") (hk : c.apiKey ≠ "") :
    validateConfig c = some .authConflict ∧ runProgram c env fuel = (.usage, []) := by
  have hv : validateConfig c = some .authConflict := by
    simp [validateConfig, hu, hk]
  exact ⟨hv, by simp [runProgram, hv]⟩

def c5Cfg : Config :=
  { index := "idx", dataFile := "d.json", user := "u", pass := "p", apiKey := "k" }

/-- C5 witness: a concrete doubly authenticated configuration is
rejected with an empty trace. -/
theorem claim_C5_witness :
    validateConfig c5Cfg = some .authConflict ∧
    runProgram c5Cfg c1Env 3 = (.usage, []) :=
  claim_C5 c5Cfg c1Env 3 (by decide) (by decide) (by decide)

/-- C6: an empty index name or an empty data path never reaches the
network: some validation error fires, usage is printed and the run
exits with the usage status and an empty request trace. -/
theorem claim_C6 (c : Config) (env : Env) (fuel : Nat)
    (h : c.index = "" ∨ c.dataFile = "") :
    (∃ e, validateConfig c = some e) ∧ runProgram c env fuel = (.usage, []) := by
  cases hv : validateConfig c with
  | some e => exact ⟨⟨e, rfl⟩, by simp [runProgram, hv]⟩
  | none =>
    exfalso
    unfold validateConfig at hv
    split_ifs at hv



def c6Cfg : Config := { index := "", dataFile := "d.json" }

/-- C6 witness: a configuration without an index name exits with the
usage status and an empty trace. -/
theorem claim_C6_witness :
    (∃ e, validateConfig c6Cfg = some e) ∧ runProgram c6Cfg c1Env 3 = (.usage, []) :=
  claim_C6 c6Cfg c1Env 3 (Or.inl rfl)

/-- C9: with an empty API key and exactly one of user and pass set,
validation passes (given the required flags) and the client carries
no credentials at all; basic auth is configured exactly when both are
set; and an API key next to exactly one of user and pass is rejected
as the auth conflict. -/
theorem claim_C9 :
    (∀ c : Config, c.apiKey = "" →
      ((c.user ≠ "" ∧ c.pass = "") ∨ (c.user = "" ∧ c.pass ≠ "")) →
      c.index ≠ "" → c.dataFile ≠ "" →
      validateConfig c = none ∧
      (buildClientConfig c).username = "" ∧
      (buildClientConfig c).password = "" ∧
      (buildClientConfig c).apiKey = "") ∧
    (∀ c : Config, c.user ≠ "" → c.pass ≠ "" →
      (buildClientConfig c).username = c.user ∧ (buildClientConfig c).password = c.pass) ∧
    (∀ c : Config, ¬(c.user ≠ "" ∧ c.pass ≠ "") →
      (buildClientConfig c).username = "" ∧ (buildClientConfig c).password = "") ∧
    (∀ c : Config, c.apiKey ≠ "" →
      ((c.user ≠ "" ∧ c.pass = "") ∨ (c.user = "" ∧ c.pass ≠ "")) →
      validateConfig c = some .authConflict) := by
  refine ⟨?_, ?_, ?_, ?_⟩
  · intro c hk hone hi hd
    have hnb : ¬(c.user ≠ "" ∧ c.pass ≠ "") := by
      rcases hone with ⟨_, h2⟩ | ⟨h1, _⟩
      · intro ⟨_, hb⟩; exact hb h2
      · intro ⟨ha, _⟩; exact ha h1
    refine ⟨?_, ?_, ?_, ?_⟩
    · simp [validateConfig, hk, hi, hd]
    · simp [buildClientConfig, hnb, hk]
    · simp [buildClientConfig, hnb, hk]
    · simp [buildClientConfig, hnb, hk]
  · intro c hu hpw
    constructor <;> simp [buildClientConfig, hu, hpw] <;>
      by_cases hk : c.apiKey = "" <;> simp [hk]
  · intro c hnb
    constructor <;> simp [buildClientConfig, hnb] <;>
      by_cases hk : c.apiKey = "" <;> simp [hk]
  · intro c hk hone
    rcases hone with ⟨h1, _⟩ | ⟨_, h2⟩
    · simp [validateConfig, hk, h1]
    · simp [validateConfig, hk, h2]

def c9Cfg : Config := { index := "idx", dataFile := "d.json", user := "u" }

/-- C9 witness: user set, password and API key empty: accepted, and
the client configuration carries no credentials. -/
theorem claim_C9_witness :
    validateConfig c9Cfg = none ∧
    (buildClientConfig c9Cfg).username = "" ∧
    (buildClientConfig c9Cfg).password = "" ∧
    (buildClientConfig c9Cfg).apiKey = "" :=
  claim_C9.1 c9Cfg rfl (Or.inl ⟨by decide, rfl⟩) (by decide) (by decide)

theorem bulkBody_foldl (index : String) :
    ∀ (docs : List Json) (a : List Char),
      docs.foldl (fun buf d => buf ++ metaLine index ++ ['\n'] ++ printJson d ++ ['\n']) a
        = a ++ docs.flatMap (fun d => metaLine index ++ '\n' :: (printJson d ++ ['\n'])) := by
  intro docs
  induction docs with
  | nil => intro a; simp
  | cons d docs ih =>
    intro a
    simp only [List.foldl_cons, List.flatMap_cons]
    rw [ih]
    simp

/-- C7: the bulk body is, for each document in order, the marshalled
action line, a newline, the marshalled document and a newline; the
document line parses back to a JSON value equal to the original
document, and the action line parses back to the index action object
carrying the index name. -/
theorem claim_C7 (index : String) (docs : List Json) :
    bulkBody index docs
      = docs.flatMap (fun d => metaLine index ++ '\n' :: (printJson d ++ ['\n'])) ∧
    (∀ d : Json, parseJson (printString d) = some d) ∧
    parseJson (String.mk (metaLine index))
      = some (.obj [("index", .obj [("_index", .str index)])]) := by
  refine ⟨?_, parseJson_printString, ?_⟩
  · unfold bulkBody
    simpa using bulkBody_foldl index docs []
  · exact parseJson_printString (.obj [("index", .obj [("_index", .str index)])])

end EsBulkLoader
